import Mathlib

/-!
Shallow embedding of `afxnuketools/metrics.py`.

The module computes two image statistics over an inclusive integer
rectangle of one channel of a node: a weighted centroid (`_centroid`,
aggregated by `centroid`) and a maximum value (`_max_value`, aggregated by
`max_value`).  Pixel sampling (`node.sample(channel, x, y)`) is an external
collaborator and is embedded as a function `f : Int → Int → ℚ`; Python
floats are embedded as exact rationals.  The multiprocessing engine
(`ImageMultiProcessor` from `afxthreads.image`) is not part of the sources
under verification, so the top-level aggregation code is embedded as a
function of the engine observables it reads: the collected `results` list
(each entry a success value or a captured exception) and the overall
`state()` flag.
-/

namespace AfxMetrics

/-- An inclusive integer rectangle (`Bounds` from `afxthreads.image`,
constructed in `metrics.py` as
`Bounds(bbox.x(), bbox.y(), bbox.w() + bbox.x() - 1, bbox.h() + bbox.y() - 1)`). -/
structure Bounds where
  x1 : Int
  y1 : Int
  x2 : Int
  y2 : Int
  deriving DecidableEq, Repr

/-- Python `xrange(a, b + 1, step)` for integer bounds: the arithmetic
progression `a, a + step, ...` of all values `≤ b`. -/
def xrange (a b : Int) (step : Nat) : List Int :=
  (List.range (if a ≤ b then (b - a).toNat / step + 1 else 0)).map
    (fun i => a + ((step * i : Nat) : Int))

/-- The sequence of pixels visited by the nested loops
`for y in xrange(region.y1, region.y2 + 1, step): for x in
xrange(region.x1, region.x2 + 1, step)` in `_centroid` and `_max_value`,
in visit order (outer loop on `y`, inner loop on `x`). -/
def samples (region : Bounds) (step : Nat) : List (Int × Int) :=
  ((xrange region.y1 region.y2 step).map (fun y =>
    (xrange region.x1 region.x2 step).map (fun x => (x, y)))).flatten

/-- The loop state of `_centroid`: the three running means and the running
sample count `n`. -/
structure CenState where
  mean_x : ℚ
  mean_y : ℚ
  mean_weight : ℚ
  n : Nat
  deriving DecidableEq, Repr

/-- One iteration of the inner loop body of `_centroid`:
`n += 1; mean_weight += (weight - mean_weight) / n;
mean_x += (weight * x - mean_x) / n; mean_y += (weight * y - mean_y) / n`. -/
def cstep (f : Int → Int → ℚ) (s : CenState) (p : Int × Int) : CenState :=
  let w := f p.1 p.2
  let m : Nat := s.n + 1
  { mean_x := s.mean_x + (w * (p.1 : ℚ) - s.mean_x) / (m : ℚ)
    mean_y := s.mean_y + (w * (p.2 : ℚ) - s.mean_y) / (m : ℚ)
    mean_weight := s.mean_weight + (w - s.mean_weight) / (m : ℚ)
    n := m }

/-- `_centroid(region, node_name, channel, step)` from `metrics.py`, with
the external sampling service for the resolved `(node_name, channel)`
abstracted as `f`.  Starts from `mean_x = mean_y = mean_weight = 0.0`,
`n = 0`, runs the nested sampling loops, and returns
`(mean_x, mean_y, mean_weight)`. -/
def _centroid (region : Bounds) (f : Int → Int → ℚ) (step : Nat) : ℚ × ℚ × ℚ :=
  let s := (samples region step).foldl (cstep f) ⟨0, 0, 0, 0⟩
  (s.mean_x, s.mean_y, s.mean_weight)

/-- `_max_value(region, node_name, channel, step)` from `metrics.py`:
`max_val = 0.0`, then `max_val = max(max_val, node.sample(channel, x, y))`
over the same nested loops. -/
def _max_value (region : Bounds) (f : Int → Int → ℚ) (step : Nat) : ℚ :=
  (samples region step).foldl (fun m p => max m (f p.1 p.2)) 0

/-- A collected job result of a `_centroid` worker: either the returned
triple or a captured exception, identified by its message. -/
abbrev CRes := Except String (ℚ × ℚ × ℚ)

/-- A collected job result of a `_max_value` worker. -/
abbrev MRes := Except String ℚ

/-- Python `str(r)` for a collected `_centroid` result: the message of an
exception, or the printed tuple of a success value. -/
def strCRes : CRes → String
  | Except.ok (a, b, c) =>
      "(" ++ toString a ++ ", " ++ toString b ++ ", " ++ toString c ++ ")"
  | Except.error m => m

/-- Python `str(r)` for a collected `_max_value` result. -/
def strMRes : MRes → String
  | Except.ok v => toString v
  | Except.error m => m

/-- The aggregation loop of `centroid`:
`for r in mp.results: if mp.state() is False or issubclass(type(r),
Exception): raise Exception(str(r)) else: sum_x += r[0]; sum_y += r[1];
sum_weight += r[2]`.  Returns the accumulated sums, or the raised message. -/
def centroidLoop (st : Bool) : List CRes → ℚ × ℚ × ℚ → Except String (ℚ × ℚ × ℚ)
  | [], acc => Except.ok acc
  | r :: rest, acc =>
    match st, r with
    | false, r => Except.error (strCRes r)
    | true, Except.error m => Except.error (strCRes (Except.error m))
    | true, Except.ok (a, b, c) =>
        centroidLoop true rest (acc.1 + a, acc.2.1 + b, acc.2.2 + c)

/-- The result-handling part of `centroid(node, channel, step)` from
`metrics.py`, as a function of the engine observables it reads: the
`mp.state()` flag `st` and the collected `mp.results` list.  After the
aggregation loop, `if sum_weight > 0: sum_x /= sum_weight;
sum_y /= sum_weight`, then `centroid = (sum_x, sum_y)` is returned.
`Except.error` embeds the `raise`; the `Option` in the return type embeds
the possibility, promised by the docstring, of returning Python `None`. -/
def centroid (st : Bool) (results : List CRes) : Except String (Option (ℚ × ℚ)) :=
  match centroidLoop st results (0, 0, 0) with
  | Except.error e => Except.error e
  | Except.ok (sum_x, sum_y, sum_weight) =>
      Except.ok (some (if 0 < sum_weight
        then (sum_x / sum_weight, sum_y / sum_weight)
        else (sum_x, sum_y)))

/-- The aggregation loop of `max_value`:
`for r in mp.results: if mp.state() is False or issubclass(type(r),
Exception): raise Exception(str(r)); max_val = max(max_val, r)`. -/
def maxLoop (st : Bool) : List MRes → ℚ → Except String ℚ
  | [], acc => Except.ok acc
  | r :: rest, acc =>
    match st, r with
    | false, r => Except.error (strMRes r)
    | true, Except.error m => Except.error (strMRes (Except.error m))
    | true, Except.ok v => maxLoop true rest (max acc v)

/-- The result-handling part of `max_value(node, channel, step)` from
`metrics.py`, as a function of the engine observables: starts from
`max_val = 0.0` and folds the collected results through the aggregation
loop.  The code has no `return None` path: on every non-raising path it
returns the accumulated `max_val`. -/
def max_value (st : Bool) (results : List MRes) : Except String ℚ :=
  maxLoop st results 0

/-- The message of the first captured per-job exception in the collected
results, if any. -/
def firstErrC : List CRes → Option String
  | [] => none
  | Except.error m :: _ => some m
  | Except.ok _ :: rest => firstErrC rest

/-- The message of the first captured per-job exception in the collected
`_max_value` results, if any. -/
def firstErrM : List MRes → Option String
  | [] => none
  | Except.error m :: _ => some m
  | Except.ok _ :: rest => firstErrM rest

/-- Whether a `centroid` outcome is the Python `None` sentinel returned
without raising. -/
def returnsNone : Except String (Option (ℚ × ℚ)) → Bool
  | Except.ok none => true
  | _ => false

/-- The sum of `value * x` over a list of sample points. -/
def sumWX (f : Int → Int → ℚ) (pts : List (Int × Int)) : ℚ :=
  (pts.map (fun p => f p.1 p.2 * (p.1 : ℚ))).sum

/-- The sum of `value * y` over a list of sample points. -/
def sumWY (f : Int → Int → ℚ) (pts : List (Int × Int)) : ℚ :=
  (pts.map (fun p => f p.1 p.2 * (p.2 : ℚ))).sum

/-- The sum of the sampled values over a list of sample points. -/
def sumW (f : Int → Int → ℚ) (pts : List (Int × Int)) : ℚ :=
  (pts.map (fun p => f p.1 p.2)).sum

/-- The loop state of `_centroid` after processing exactly the sample
points `pts`: each running mean is the corresponding sum divided by the
sample count (in ℚ, division by a zero count yields the initial `0`). -/
def stateOf (f : Int → Int → ℚ) (pts : List (Int × Int)) : CenState :=
  { mean_x := sumWX f pts / (pts.length : ℚ)
    mean_y := sumWY f pts / (pts.length : ℚ)
    mean_weight := sumW f pts / (pts.length : ℚ)
    n := pts.length }

/-- The naive (non-incremental) centroid of the claim's words: the sum of
`value * x` over the visited samples divided by the sample count, the sum
of `value * y` divided by the count, and the sum of the values divided by
the count, in exact arithmetic. -/
def naive_centroid (region : Bounds) (f : Int → Int → ℚ) (step : Nat) : ℚ × ℚ × ℚ :=
  let pts := samples region step
  ((pts.map (fun p => f p.1 p.2 * (p.1 : ℚ))).sum / (pts.length : ℚ),
   (pts.map (fun p => f p.1 p.2 * (p.2 : ℚ))).sum / (pts.length : ℚ),
   (pts.map (fun p => f p.1 p.2)).sum / (pts.length : ℚ))

/-- The geometric center of the sampled region: the mean of the `x`
coordinates and the mean of the `y` coordinates over all visited sample
points. -/
def sampledCenter (region : Bounds) (step : Nat) : ℚ × ℚ :=
  let pts := samples region step
  ((pts.map (fun p => (p.1 : ℚ))).sum / (pts.length : ℚ),
   (pts.map (fun p => (p.2 : ℚ))).sum / (pts.length : ℚ))

/-- The loop body of `_centroid` instrumented for division safety: it
performs the three divisions by the incremented count `n` only after
checking that the divisor is nonzero, and reports `none` otherwise. -/
def cstepChecked (f : Int → Int → ℚ) (s : CenState) (p : Int × Int) : Option CenState :=
  let w := f p.1 p.2
  let m : Nat := s.n + 1
  if (m : ℚ) = 0 then none
  else some
    { mean_x := s.mean_x + (w * (p.1 : ℚ) - s.mean_x) / (m : ℚ)
      mean_y := s.mean_y + (w * (p.2 : ℚ) - s.mean_y) / (m : ℚ)
      mean_weight := s.mean_weight + (w - s.mean_weight) / (m : ℚ)
      n := m }

/-- `_centroid` instrumented for division safety: `none` would flag a
division by zero inside the sampling loop. -/
def _centroid_checked (region : Bounds) (f : Int → Int → ℚ) (step : Nat) :
    Option (ℚ × ℚ × ℚ) :=
  ((samples region step).foldlM (cstepChecked f) ⟨0, 0, 0, 0⟩).map
    (fun s => (s.mean_x, s.mean_y, s.mean_weight))

/-- The result-handling part of `centroid` instrumented for division
safety: the division by `sum_weight` is attempted only inside the
`sum_weight > 0` guard, and `none` would flag a zero divisor there. -/
def centroidChecked (st : Bool) (results : List CRes) :
    Option (Except String (Option (ℚ × ℚ))) :=
  match centroidLoop st results (0, 0, 0) with
  | Except.error e => some (Except.error e)
  | Except.ok (sum_x, sum_y, sum_weight) =>
      if 0 < sum_weight then
        if sum_weight = 0 then none
        else some (Except.ok (some (sum_x / sum_weight, sum_y / sum_weight)))
      else some (Except.ok (some (sum_x, sum_y)))

/-- Modelled from the spec: `ImageMultiProcessor` (`afxthreads.image`) is
not among the sources under verification.  Per the spec, `state()` is the
"overall success flag — false if any job failed or the engine was
aborted"; so after a user cancellation triggers `abort()`, the driving
loops in `centroid` and `max_value` observe `state() = false`. -/
def abortedState : Bool := false

/-- Modelled from the spec: a run cancelled before any job completed has
collected no `_centroid` results (`results` grows only as jobs complete). -/
def cancelledEarlyResultsC : List CRes := []

/-- Modelled from the spec: a run cancelled before any job completed has
collected no `_max_value` results. -/
def cancelledEarlyResultsM : List MRes := []

lemma sumWX_nil (f : Int → Int → ℚ) : sumWX f [] = 0 := rfl

lemma sumWY_nil (f : Int → Int → ℚ) : sumWY f [] = 0 := rfl

lemma sumW_nil (f : Int → Int → ℚ) : sumW f [] = 0 := rfl

lemma sumWX_append (f : Int → Int → ℚ) (p q : List (Int × Int)) :
    sumWX f (p ++ q) = sumWX f p + sumWX f q := by
  simp [sumWX]

lemma sumWY_append (f : Int → Int → ℚ) (p q : List (Int × Int)) :
    sumWY f (p ++ q) = sumWY f p + sumWY f q := by
  simp [sumWY]

lemma sumW_append (f : Int → Int → ℚ) (p q : List (Int × Int)) :
    sumW f (p ++ q) = sumW f p + sumW f q := by
  simp [sumW]

lemma welford_step (S w : ℚ) (n : ℕ) (h : n = 0 → S = 0) :
    S / (n : ℚ) + (w - S / (n : ℚ)) / ((n + 1 : ℕ) : ℚ) = (S + w) / ((n + 1 : ℕ) : ℚ) := by
  rcases Nat.eq_zero_or_pos n with hn | hn
  · subst hn
    rw [h rfl]
    norm_num
  · have hn0 : (n : ℚ) ≠ 0 := Nat.cast_ne_zero.mpr hn.ne'
    have hn1 : ((n + 1 : ℕ) : ℚ) ≠ 0 := Nat.cast_ne_zero.mpr (Nat.succ_ne_zero n)
    push_cast at hn1 ⊢
    field_simp
    ring

lemma cstep_stateOf (f : Int → Int → ℚ) (p : List (Int × Int)) (a : Int × Int) :
    cstep f (stateOf f p) a = stateOf f (p ++ [a]) := by
  have h0x : p.length = 0 → sumWX f p = 0 := by
    intro h
    rw [List.length_eq_zero.mp h, sumWX_nil]
  have h0y : p.length = 0 → sumWY f p = 0 := by
    intro h
    rw [List.length_eq_zero.mp h, sumWY_nil]
  have h0w : p.length = 0 → sumW f p = 0 := by
    intro h
    rw [List.length_eq_zero.mp h, sumW_nil]
  have hlen : (p ++ [a]).length = p.length + 1 := by simp
  unfold cstep stateOf
  simp only [CenState.mk.injEq, hlen, sumWX_append, sumWY_append, sumW_append]
  refine ⟨?_, ?_, ?_, trivial⟩
  · simpa [sumWX] using welford_step (sumWX f p) (f a.1 a.2 * (a.1 : ℚ)) p.length h0x
  · simpa [sumWY] using welford_step (sumWY f p) (f a.1 a.2 * (a.2 : ℚ)) p.length h0y
  · simpa [sumW] using welford_step (sumW f p) (f a.1 a.2) p.length h0w

lemma foldl_cstep_eq (f : Int → Int → ℚ) (l p : List (Int × Int)) :
    l.foldl (cstep f) (stateOf f p) = stateOf f (p ++ l) := by
  induction l generalizing p with
  | nil => simp
  | cons a t ih =>
      rw [List.foldl_cons, cstep_stateOf, ih]
      simp

lemma stateOf_nil (f : Int → Int → ℚ) : stateOf f [] = ⟨0, 0, 0, 0⟩ := by
  simp [stateOf, sumWX_nil, sumWY_nil, sumW_nil]

lemma centroid_eq_naive (region : Bounds) (f : Int → Int → ℚ) (step : Nat) :
    _centroid region f step = naive_centroid region f step := by
  unfold _centroid naive_centroid
  rw [← stateOf_nil f, foldl_cstep_eq]
  simp [stateOf, sumWX, sumWY, sumW]

lemma mem_xrange {a b : Int} {step : Nat} (hstep : 1 ≤ step) {z : Int} :
    z ∈ xrange a b step ↔ (∃ i : ℕ, z = a + ((step * i : Nat) : Int)) ∧ z ≤ b := by
  have hpos : 0 < step := hstep
  unfold xrange
  simp only [List.mem_map, List.mem_range]
  constructor
  · rintro ⟨i, hi, rfl⟩
    refine ⟨⟨i, rfl⟩, ?_⟩
    by_cases hab : a ≤ b
    · rw [if_pos hab] at hi
      have h1 : step * i ≤ step * ((b - a).toNat / step) :=
        Nat.mul_le_mul_left step (Nat.lt_succ_iff.mp hi)
      have h2 : step * ((b - a).toNat / step) ≤ (b - a).toNat := by
        rw [mul_comm]
        exact Nat.div_mul_le_self _ _
      have h3 : ((step * i : Nat) : Int) ≤ (((b - a).toNat : Nat) : Int) :=
        Nat.cast_le.mpr (le_trans h1 h2)
      rw [Int.toNat_of_nonneg (sub_nonneg.mpr hab)] at h3
      linarith
    · rw [if_neg hab] at hi
      omega
  · rintro ⟨⟨i, rfl⟩, hz⟩
    refine ⟨i, ?_, rfl⟩
    have hk : (0 : Int) ≤ ((step * i : Nat) : Int) := Int.natCast_nonneg _
    have hab : a ≤ b := le_trans (le_add_of_nonneg_right hk) hz
    rw [if_pos hab]
    have h2 : ((step * i : Nat) : Int) ≤ (((b - a).toNat : Nat) : Int) := by
      rw [Int.toNat_of_nonneg (sub_nonneg.mpr hab)]
      linarith
    have h2' : step * i ≤ (b - a).toNat := by exact_mod_cast h2
    have h3 : i ≤ (b - a).toNat / step := by
      refine (Nat.le_div_iff_mul_le hpos).mpr ?_
      rw [mul_comm]
      exact h2'
    omega

lemma length_xrange (a b : Int) (step : Nat) :
    (xrange a b step).length = if a ≤ b then (b - a).toNat / step + 1 else 0 := by
  simp [xrange]

lemma mem_samples {region : Bounds} {step : Nat} (p : Int × Int) :
    p ∈ samples region step ↔
      p.1 ∈ xrange region.x1 region.x2 step ∧ p.2 ∈ xrange region.y1 region.y2 step := by
  obtain ⟨px, py⟩ := p
  simp only [samples, List.mem_flatten, List.mem_map]
  constructor
  · rintro ⟨l, ⟨y, hy, rfl⟩, hp⟩
    rcases List.mem_map.mp hp with ⟨x, hx, hxy⟩
    obtain ⟨rfl, rfl⟩ := Prod.mk.injEq .. ▸ hxy
    exact ⟨hx, hy⟩
  · rintro ⟨hx, hy⟩
    exact ⟨(xrange region.x1 region.x2 step).map (fun x => (x, py)),
      ⟨py, hy, rfl⟩, List.mem_map.mpr ⟨px, hx, rfl⟩⟩

lemma length_samples (region : Bounds) (step : Nat) :
    (samples region step).length =
      (xrange region.y1 region.y2 step).length * (xrange region.x1 region.x2 step).length := by
  unfold samples
  rw [List.length_flatten, List.map_map]
  generalize xrange region.y1 region.y2 step = ys
  induction ys with
  | nil => simp
  | cons a t ih =>
      simp only [List.map_cons, List.sum_cons, List.length_cons, Function.comp_apply,
        List.length_map, ih]
      ring

lemma centroidLoop_ok_sums (l : List (ℚ × ℚ × ℚ)) (acc : ℚ × ℚ × ℚ) :
    centroidLoop true (l.map Except.ok) acc =
      Except.ok (acc.1 + (l.map (fun r => r.1)).sum,
                 acc.2.1 + (l.map (fun r => r.2.1)).sum,
                 acc.2.2 + (l.map (fun r => r.2.2)).sum) := by
  induction l generalizing acc with
  | nil => simp [centroidLoop]
  | cons a t ih =>
      obtain ⟨a1, a2, a3⟩ := a
      simp only [List.map_cons, centroidLoop, List.sum_cons]
      rw [ih]
      simp [add_assoc]

lemma centroidLoop_error_first (l : List CRes) (acc : ℚ × ℚ × ℚ) (m : String)
    (h : centroidLoop true l acc = Except.error m) : firstErrC l = some m := by
  induction l generalizing acc with
  | nil => simp [centroidLoop] at h
  | cons r t ih =>
      cases r with
      | error e =>
          simp only [centroidLoop, strCRes, Except.error.injEq] at h
          simp [firstErrC, h]
      | ok a =>
          obtain ⟨a1, a2, a3⟩ := a
          simp only [centroidLoop] at h
          simpa [firstErrC] using ih _ h

lemma maxLoop_error_first (l : List MRes) (acc : ℚ) (m : String)
    (h : maxLoop true l acc = Except.error m) : firstErrM l = some m := by
  induction l generalizing acc with
  | nil => simp [maxLoop] at h
  | cons r t ih =>
      cases r with
      | error e =>
          simp only [maxLoop, strMRes, Except.error.injEq] at h
          simp [firstErrM, h]
      | ok a =>
          simp only [maxLoop] at h
          simpa [firstErrM] using ih _ h

lemma centroidLoop_false_cons (r : CRes) (rest : List CRes) (acc : ℚ × ℚ × ℚ) :
    centroidLoop false (r :: rest) acc = Except.error (strCRes r) := rfl

lemma maxLoop_false_cons (r : MRes) (rest : List MRes) (acc : ℚ) :
    maxLoop false (r :: rest) acc = Except.error (strMRes r) := rfl

lemma centroidLoop_error_of (st : Bool) (rs : List CRes) (acc : ℚ × ℚ × ℚ)
    (h : (st = false ∧ rs ≠ []) ∨ ∃ m, Except.error m ∈ rs) :
    ∃ e, centroidLoop st rs acc = Except.error e := by
  induction rs generalizing acc with
  | nil =>
      rcases h with ⟨_, hne⟩ | ⟨m, hm⟩
      · exact absurd rfl hne
      · simp at hm
  | cons r t ih =>
      cases st with
      | false => exact ⟨strCRes r, rfl⟩
      | true =>
          cases r with
          | error e => exact ⟨e, by simp [centroidLoop, strCRes]⟩
          | ok a =>
              obtain ⟨a1, a2, a3⟩ := a
              rcases h with ⟨hst, _⟩ | ⟨m, hm⟩
              · exact absurd hst (by simp)
              · have hm' : Except.error m ∈ t := by
                  rcases List.mem_cons.mp hm with hbad | ht
                  · exact absurd hbad (by simp)
                  · exact ht
                simpa [centroidLoop] using ih _ (Or.inr ⟨m, hm'⟩)

lemma maxLoop_error_of (st : Bool) (rs : List MRes) (acc : ℚ)
    (h : (st = false ∧ rs ≠ []) ∨ ∃ m, Except.error m ∈ rs) :
    ∃ e, maxLoop st rs acc = Except.error e := by
  induction rs generalizing acc with
  | nil =>
      rcases h with ⟨_, hne⟩ | ⟨m, hm⟩
      · exact absurd rfl hne
      · simp at hm
  | cons r t ih =>
      cases st with
      | false => exact ⟨strMRes r, rfl⟩
      | true =>
          cases r with
          | error e => exact ⟨e, by simp [maxLoop, strMRes]⟩
          | ok a =>
              rcases h with ⟨hst, _⟩ | ⟨m, hm⟩
              · exact absurd hst (by simp)
              · have hm' : Except.error m ∈ t := by
                  rcases List.mem_cons.mp hm with hbad | ht
                  · exact absurd hbad (by simp)
                  · exact ht
                simpa [maxLoop] using ih _ (Or.inr ⟨m, hm'⟩)

lemma maxLoop_ok_ge (l : List MRes) (acc v : ℚ)
    (h : maxLoop true l acc = Except.ok v) : acc ≤ v := by
  induction l generalizing acc with
  | nil =>
      simp only [maxLoop, Except.ok.injEq] at h
      exact le_of_eq h
  | cons r t ih =>
      cases r with
      | error e => simp [maxLoop] at h
      | ok w =>
          simp only [maxLoop] at h
          exact le_trans (le_max_left acc w) (ih _ h)

lemma foldl_max_init_le (f : Int → Int → ℚ) (l : List (Int × Int)) (a : ℚ) :
    a ≤ l.foldl (fun m p => max m (f p.1 p.2)) a := by
  induction l generalizing a with
  | nil => exact le_refl a
  | cons b t ih => exact le_trans (le_max_left a (f b.1 b.2)) (ih _)

lemma foldl_max_of_mem (f : Int → Int → ℚ) {l : List (Int × Int)} {p : Int × Int}
    (hp : p ∈ l) : ∀ a : ℚ, f p.1 p.2 ≤ l.foldl (fun m q => max m (f q.1 q.2)) a := by
  induction hp with
  | head t =>
      intro a
      exact le_trans (le_max_right a (f p.1 p.2)) (foldl_max_init_le f t _)
  | tail b hmem ih =>
      intro a
      exact ih _

lemma foldl_max_cases (f : Int → Int → ℚ) (l : List (Int × Int)) (a : ℚ) :
    l.foldl (fun m p => max m (f p.1 p.2)) a = a ∨
      ∃ p ∈ l, l.foldl (fun m p => max m (f p.1 p.2)) a = f p.1 p.2 := by
  induction l generalizing a with
  | nil => exact Or.inl rfl
  | cons b t ih =>
      rcases ih (max a (f b.1 b.2)) with h | ⟨p, hp, h⟩
      · rcases max_choice a (f b.1 b.2) with hm | hm
        · exact Or.inl (by rw [List.foldl_cons, h, hm])
        · exact Or.inr ⟨b, List.mem_cons_self b t, by rw [List.foldl_cons, h, hm]⟩
      · exact Or.inr ⟨p, List.mem_cons_of_mem b hp, by rw [List.foldl_cons, h]⟩

lemma cstepChecked_eq (f : Int → Int → ℚ) (s : CenState) (p : Int × Int) :
    cstepChecked f s p = some (cstep f s p) := by
  unfold cstepChecked cstep
  rw [if_neg (Nat.cast_ne_zero.mpr (Nat.succ_ne_zero s.n))]

lemma foldlM_cstepChecked (f : Int → Int → ℚ) (l : List (Int × Int)) (s : CenState) :
    l.foldlM (cstepChecked f) s = some (l.foldl (cstep f) s) := by
  induction l generalizing s with
  | nil => rfl
  | cons a t ih =>
      rw [List.foldlM_cons, cstepChecked_eq]
      exact ih (cstep f s a)

lemma centroid_checked_eq (region : Bounds) (f : Int → Int → ℚ) (step : Nat) :
    _centroid_checked region f step = some (_centroid region f step) := by
  unfold _centroid_checked _centroid
  rw [foldlM_cstepChecked]
  rfl

lemma centroidChecked_eq (st : Bool) (rs : List CRes) :
    centroidChecked st rs = some (centroid st rs) := by
  unfold centroidChecked centroid
  cases h : centroidLoop st rs (0, 0, 0) with
  | error e => rfl
  | ok acc =>
      obtain ⟨sx, sy, sw⟩ := acc
      dsimp only
      by_cases hsw : 0 < sw
      · rw [if_pos hsw, if_pos hsw, if_neg (ne_of_gt hsw)]
      · rw [if_neg hsw, if_neg hsw]

lemma sum_map_div (l : List ℚ) (c : ℚ) :
    (l.map (fun x => x / c)).sum = l.sum / c := by
  induction l with
  | nil => simp
  | cons a t ih => simp [ih, add_div]

lemma centroid_never_none (st : Bool) (rs : List CRes) :
    returnsNone (centroid st rs) = false := by
  unfold centroid
  cases h : centroidLoop st rs (0, 0, 0) with
  | error e => rfl
  | ok acc =>
      obtain ⟨sx, sy, sw⟩ := acc
      dsimp only
      by_cases hsw : 0 < sw
      · rw [if_pos hsw]
        rfl
      · rw [if_neg hsw]
        rfl

lemma _centroid_components (region : Bounds) (f : Int → Int → ℚ) (step : Nat) :
    _centroid region f step =
      (sumWX f (samples region step) / ((samples region step).length : ℚ),
       sumWY f (samples region step) / ((samples region step).length : ℚ),
       sumW f (samples region step) / ((samples region step).length : ℚ)) := by
  unfold _centroid
  rw [← stateOf_nil f, foldl_cstep_eq]
  simp [stateOf]

lemma sumWX_one (pts : List (Int × Int)) :
    sumWX (fun _ _ => 1) pts = (pts.map (fun p => (p.1 : ℚ))).sum := by
  simp [sumWX]

lemma sumWY_one (pts : List (Int × Int)) :
    sumWY (fun _ _ => 1) pts = (pts.map (fun p => (p.2 : ℚ))).sum := by
  simp [sumWY]

lemma sumW_one (pts : List (Int × Int)) :
    sumW (fun _ _ => 1) pts = (pts.length : ℚ) := by
  induction pts with
  | nil => simp [sumW]
  | cons a t ih =>
      simp only [sumW, List.map_cons, List.sum_cons, List.length_cons] at ih ⊢
      rw [ih]
      push_cast
      ring

lemma sum_map_eq_zero {α : Type} (l : List α) (g : α → ℚ) (h : ∀ p ∈ l, g p = 0) :
    (l.map g).sum = 0 := by
  induction l with
  | nil => simp
  | cons a t ih =>
      simp only [List.map_cons, List.sum_cons]
      rw [h a (List.mem_cons_self a t), ih (fun p hp => h p (List.mem_cons_of_mem a hp))]
      ring

lemma sum_map_one {α : Type} (l : List α) :
    (l.map (fun _ => (1 : ℚ))).sum = (l.length : ℚ) := by
  induction l with
  | nil => simp
  | cons a t ih =>
      simp only [List.map_cons, List.sum_cons, List.length_cons, ih]
      push_cast
      ring

lemma sum_map_const_nat {α : Type} (l : List α) (g : α → ℕ) (c : ℕ)
    (h : ∀ a ∈ l, g a = c) : (l.map g).sum = l.length * c := by
  induction l with
  | nil => simp
  | cons a t ih =>
      simp only [List.map_cons, List.sum_cons, List.length_cons]
      rw [h a (List.mem_cons_self a t), ih (fun p hp => h p (List.mem_cons_of_mem a hp))]
      ring

lemma sum_map_flatten {α : Type} (L : List (List α)) (g : α → ℚ) :
    ((L.flatten).map g).sum = (L.map (fun l => (l.map g).sum)).sum := by
  induction L with
  | nil => simp
  | cons a t ih =>
      simp only [List.flatten_cons, List.map_append, List.sum_append, List.map_cons,
        List.sum_cons, ih]

lemma centroidLoop_zero (rs : List CRes) (h : ∀ r ∈ rs, r = Except.ok (0, 0, 0)) :
    ∀ acc, centroidLoop true rs acc = Except.ok acc := by
  induction rs with
  | nil => intro acc; rfl
  | cons r t ih =>
      intro acc
      rw [h r (List.mem_cons_self r t)]
      show centroidLoop true t (acc.1 + 0, acc.2.1 + 0, acc.2.2 + 0) = Except.ok acc
      rw [add_zero, add_zero, add_zero]
      exact ih (fun p hp => h p (List.mem_cons_of_mem r hp)) acc

/-- Claim C1 (code_bug evidence): the claim and the docstrings say that
`centroid` and `max_value` return the `None` sentinel exactly on user
cancellation, but the code has no `return None` path at all.  Evaluated at
the cancelled-before-any-job-completed engine observables (aborted state
flag, no collected results), `centroid` returns the numeric tuple
`(0.0, 0.0)` and `max_value` returns `0.0`; moreover no state flag and no
results collection whatsoever can make `centroid` return `None` (the only
assignment `centroid = None` is immediately followed by `raise`), and
`max_value` returns a float on every non-raising path by construction. -/
theorem claim_C1_no_none_sentinel :
    centroid abortedState cancelledEarlyResultsC = Except.ok (some (0, 0)) ∧
    max_value abortedState cancelledEarlyResultsM = Except.ok 0 ∧
    ∀ (st : Bool) (rs : List CRes), returnsNone (centroid st rs) = false :=
  ⟨rfl, rfl, centroid_never_none⟩

/-- Claim C2 counterexample: with the engine state flag false and the
collected results `[ok (1, 2, 3), error "boom"]`, `centroid` raises
carrying `str((1.0, 2.0, 3.0))` — the string form of the first collected
result, a success tuple — while the first captured per-job error's message
is `"boom"`; so the raised message is not the first error's message. -/
theorem claim_C2_counterexample :
    centroid false [Except.ok (1, 2, 3), Except.error "boom"] =
      Except.error (strCRes (Except.ok (1, 2, 3))) ∧
    firstErrC [Except.ok (1, 2, 3), Except.error "boom"] = some "boom" ∧
    (strCRes (Except.ok (1, 2, 3)) == "boom") = false :=
  ⟨rfl, rfl, by decide⟩

/-- Claim C2 (amended): whenever `centroid` or `max_value` raises with the
engine's overall state flag true, the raised message is the message of the
first captured per-job error in the collected results; when the state flag
is false, the raise instead carries the string form of the first collected
result, whether or not that result is an error. -/
theorem claim_C2_first_error_message :
    (∀ (rs : List CRes) (m : String),
      centroid true rs = Except.error m → firstErrC rs = some m) ∧
    (∀ (rs : List MRes) (m : String),
      max_value true rs = Except.error m → firstErrM rs = some m) ∧
    (∀ (r : CRes) (rest : List CRes),
      centroid false (r :: rest) = Except.error (strCRes r)) ∧
    (∀ (r : MRes) (rest : List MRes),
      max_value false (r :: rest) = Except.error (strMRes r)) := by
  refine ⟨?_, ?_, fun r rest => rfl, fun r rest => rfl⟩
  · intro rs m h
    unfold centroid at h
    cases hl : centroidLoop true rs (0, 0, 0) with
    | error e =>
        rw [hl] at h
        dsimp only at h
        injection h with h'
        exact h' ▸ centroidLoop_error_first rs (0, 0, 0) e hl
    | ok acc =>
        obtain ⟨sx, sy, sw⟩ := acc
        rw [hl] at h
        dsimp only at h
        exact absurd h (by simp)
  · intro rs m h
    unfold max_value at h
    exact maxLoop_error_first rs 0 m h

/-- Claim C2 witness: a failing run with state flag true and results
`[error "boom"]` raises `"boom"`, which is indeed the first captured
error's message. -/
theorem claim_C2_first_error_message_witness :
    firstErrC [Except.error "boom"] = some "boom" :=
  claim_C2_first_error_message.1 [Except.error "boom"] "boom" rfl

/-- Claim C3 counterexample: a run whose engine state flag reports failure
but whose results collection is empty (for example an abort before any job
completed) does not raise: `centroid` returns the tuple `(0.0, 0.0)` and
`max_value` returns `0.0`, contradicting the claim that a failure-flagged
run always raises and never returns a result. -/
theorem claim_C3_counterexample :
    centroid false ([] : List CRes) = Except.ok (some (0, 0)) ∧
    max_value false ([] : List MRes) = Except.ok 0 ∧
    Except.isOk (centroid false ([] : List CRes)) = true :=
  ⟨rfl, rfl, rfl⟩

/-- Claim C3 (amended): if some collected job result is an exception, or
the engine's overall state flag reports failure and at least one result
was collected, then both `centroid` and `max_value` raise and never return
a numeric or tuple result. -/
theorem claim_C3_failure_always_raises :
    (∀ (st : Bool) (rs : List CRes),
      ((st = false ∧ rs ≠ []) ∨ ∃ m, Except.error m ∈ rs) →
      Except.isOk (centroid st rs) = false) ∧
    (∀ (st : Bool) (rs : List MRes),
      ((st = false ∧ rs ≠ []) ∨ ∃ m, Except.error m ∈ rs) →
      Except.isOk (max_value st rs) = false) := by
  constructor
  · intro st rs h
    obtain ⟨e, he⟩ := centroidLoop_error_of st rs (0, 0, 0) h
    unfold centroid
    rw [he]
    rfl
  · intro st rs h
    obtain ⟨e, he⟩ := maxLoop_error_of st rs 0 h
    unfold max_value
    rw [he]
    rfl

/-- Claim C3 witness: with state flag true and a captured exception among
the results, `centroid` raises (its outcome is not a success value). -/
theorem claim_C3_failure_always_raises_witness :
    Except.isOk (centroid true [Except.error "boom"]) = false :=
  claim_C3_failure_always_raises.1 true [Except.error "boom"]
    (Or.inr ⟨"boom", List.mem_cons_self _ _⟩)

/-- Claim C4: for every region with `x1 ≤ x2` and `y1 ≤ y2`, every
`step ≥ 1` and every sampling function, `_centroid` visits exactly the
grid points `(x1 + i*step, y1 + j*step)` lying within the inclusive
rectangle, and its Welford-style incremental updates are equivalent to the
naive definition: the sums of `value*x`, `value*y` and `value` over the
visited samples, each divided by the sample count, in exact arithmetic. -/
theorem claim_C4_centroid_refines_naive (region : Bounds) (f : Int → Int → ℚ)
    (step : Nat) (hx : region.x1 ≤ region.x2) (hy : region.y1 ≤ region.y2)
    (hstep : 1 ≤ step) :
    (∀ p : Int × Int, p ∈ samples region step ↔
      ((∃ i : ℕ, p.1 = region.x1 + ((step * i : Nat) : Int)) ∧ p.1 ≤ region.x2 ∧
       (∃ j : ℕ, p.2 = region.y1 + ((step * j : Nat) : Int)) ∧ p.2 ≤ region.y2)) ∧
    _centroid region f step = naive_centroid region f step := by
  constructor
  · intro p
    rw [mem_samples, mem_xrange hstep, mem_xrange hstep]
    tauto
  · exact centroid_eq_naive region f step

/-- Claim C4 witness: the refinement instantiated on the 3×3 region at the
origin with the sampling function `x*y` and stride 1. -/
theorem claim_C4_centroid_refines_naive_witness :
    (∀ p : Int × Int, p ∈ samples ⟨0, 0, 2, 2⟩ 1 ↔
      ((∃ i : ℕ, p.1 = (0 : Int) + ((1 * i : Nat) : Int)) ∧ p.1 ≤ 2 ∧
       (∃ j : ℕ, p.2 = (0 : Int) + ((1 * j : Nat) : Int)) ∧ p.2 ≤ 2)) ∧
    _centroid ⟨0, 0, 2, 2⟩ (fun x y => (x * y : ℚ)) 1 =
      naive_centroid ⟨0, 0, 2, 2⟩ (fun x y => (x * y : ℚ)) 1 :=
  claim_C4_centroid_refines_naive ⟨0, 0, 2, 2⟩ (fun x y => (x * y : ℚ)) 1
    (by decide) (by decide) (by decide)

/-- Claim C6: if every sampled channel value is `0.0`, then `_centroid`
returns the partial result `(0.0, 0.0, 0.0)`; and when every collected
result is `(0.0, 0.0, 0.0)` (so the summed weight is zero), `centroid`
returns the unnormalized sums `(0.0, 0.0)`, the normalization by the
summed weight being skipped because that sum is not strictly positive —
as the instrumented division-checked aggregator confirms, no division by
zero occurs. -/
theorem claim_C6_all_zero_region (region : Bounds) (f : Int → Int → ℚ)
    (step : Nat) (rs : List CRes) (hf : ∀ x y, f x y = 0)
    (hrs : ∀ r ∈ rs, r = Except.ok (0, 0, 0)) :
    _centroid region f step = (0, 0, 0) ∧
    centroid true rs = Except.ok (some (0, 0)) ∧
    centroidChecked true rs = some (Except.ok (some (0, 0))) := by
  have h1 : _centroid region f step = (0, 0, 0) := by
    rw [_centroid_components]
    unfold sumWX sumWY sumW
    rw [sum_map_eq_zero _ _ (fun p _ => by rw [hf p.1 p.2]; ring),
        sum_map_eq_zero _ _ (fun p _ => by rw [hf p.1 p.2]; ring),
        sum_map_eq_zero _ _ (fun p _ => hf p.1 p.2)]
    simp
  have h2 : centroid true rs = Except.ok (some (0, 0)) := by
    unfold centroid
    rw [centroidLoop_zero rs hrs (0, 0, 0)]
    dsimp only
    rw [if_neg (lt_irrefl 0)]
  exact ⟨h1, h2, by rw [centroidChecked_eq, h2]⟩

/-- Claim C6 witness: the all-zero behaviour instantiated on a concrete
2×2 region, the zero sampling function and a one-job results list. -/
theorem claim_C6_all_zero_region_witness :
    _centroid ⟨0, 0, 1, 1⟩ (fun _ _ => 0) 1 = (0, 0, 0) ∧
    centroid true [Except.ok (0, 0, 0)] = Except.ok (some (0, 0)) ∧
    centroidChecked true [Except.ok (0, 0, 0)] = some (Except.ok (some (0, 0))) :=
  claim_C6_all_zero_region ⟨0, 0, 1, 1⟩ (fun _ _ => 0) 1 [Except.ok (0, 0, 0)]
    (fun _ _ => rfl) (by simp)

/-- Claim C7: for every region and every `step ≥ 1`, `_max_value` starts
its accumulator at `0.0` and returns the maximum of `0.0` and all sampled
values: the result is `≥ 0`, is an upper bound of every sampled value, and
is either `0` or one of the sampled values; consequently a region whose
sampled values are all strictly negative reports `0.0`, not the true
negative maximum. -/
theorem claim_C7_max_seeded_zero (region : Bounds) (f : Int → Int → ℚ)
    (step : Nat) (hstep : 1 ≤ step) :
    0 ≤ _max_value region f step ∧
    (∀ p ∈ samples region step, f p.1 p.2 ≤ _max_value region f step) ∧
    (_max_value region f step = 0 ∨
      ∃ p ∈ samples region step, _max_value region f step = f p.1 p.2) ∧
    ((∀ p ∈ samples region step, f p.1 p.2 < 0) → _max_value region f step = 0) := by
  unfold _max_value
  have hub : ∀ p ∈ samples region step,
      f p.1 p.2 ≤ (samples region step).foldl (fun m p => max m (f p.1 p.2)) 0 :=
    fun p hp => foldl_max_of_mem f hp 0
  have h0 : 0 ≤ (samples region step).foldl (fun m p => max m (f p.1 p.2)) 0 :=
    foldl_max_init_le f (samples region step) 0
  have hcases := foldl_max_cases f (samples region step) 0
  refine ⟨h0, hub, hcases, ?_⟩
  intro hneg
  rcases hcases with h | ⟨p, hp, h⟩
  · exact h
  · exact absurd (h ▸ h0) (not_le.mpr (hneg p hp))

set_option maxHeartbeats 1000000 in
/-- Claim C7 witness: on the 2×2 region at the origin with all samples
equal to `-1`, `_max_value` reports `0`, not the true maximum `-1`. -/
theorem claim_C7_max_seeded_zero_witness :
    _max_value ⟨0, 0, 1, 1⟩ (fun _ _ => -1) 1 = 0 :=
  (claim_C7_max_seeded_zero ⟨0, 0, 1, 1⟩ (fun _ _ => -1) 1 (by decide)).2.2.2
    (by intro p _; norm_num)

/-- Claim C8: for every valid region and `step ≥ 1`, `_centroid` performs
no division by zero — the sample count is incremented to at least 1 before
each of the three divisions, so the instrumented division-checked variant
agrees with the plain one — and the aggregation in `centroid` divides by
the summed weight only under the strict-positivity guard, so its
instrumented variant also never flags a zero divisor, for every engine
state and results collection. -/
theorem claim_C8_no_division_by_zero (region : Bounds) (f : Int → Int → ℚ)
    (step : Nat) (st : Bool) (rs : List CRes) (hx : region.x1 ≤ region.x2)
    (hy : region.y1 ≤ region.y2) (hstep : 1 ≤ step) :
    _centroid_checked region f step = some (_centroid region f step) ∧
    centroidChecked st rs = some (centroid st rs) :=
  ⟨centroid_checked_eq region f step, centroidChecked_eq st rs⟩

/-- Claim C8 witness: the division-safety instrumentation instantiated on
a concrete 2×2 region, sampling function `x + y`, stride 1, and a one-job
results collection. -/
theorem claim_C8_no_division_by_zero_witness :
    _centroid_checked ⟨0, 0, 1, 1⟩ (fun x y => (x + y : ℚ)) 1 =
      some (_centroid ⟨0, 0, 1, 1⟩ (fun x y => (x + y : ℚ)) 1) ∧
    centroidChecked true [Except.ok (1, 2, 3)] =
      some (centroid true [Except.ok (1, 2, 3)]) :=
  claim_C8_no_division_by_zero ⟨0, 0, 1, 1⟩ (fun x y => (x + y : ℚ)) 1 true
    [Except.ok (1, 2, 3)] (by decide) (by decide) (by decide)

/-- Claim C9: whenever `max_value` returns a numeric result rather than
raising, that result is at least `0.0`, for every engine state flag and
every collected results list, because the aggregation accumulator is
seeded with `0.0` (and, per claim C7, each per-worker accumulator is as
well). -/
theorem claim_C9_max_value_nonneg (st : Bool) (rs : List MRes) (v : ℚ)
    (h : max_value st rs = Except.ok v) : 0 ≤ v := by
  cases st with
  | true => exact maxLoop_ok_ge rs 0 v h
  | false =>
      cases rs with
      | nil =>
          unfold max_value maxLoop at h
          injection h with h'
          rw [← h']
      | cons r t =>
          unfold max_value at h
          rw [maxLoop_false_cons] at h
          cases h

/-- Claim C9 witness: a successful run over the results `[ok 5]` returns
`5`, which is nonnegative. -/
theorem claim_C9_max_value_nonneg_witness : (0 : ℚ) ≤ 5 :=
  claim_C9_max_value_nonneg true [Except.ok 5] 5 rfl

/-- Claim C10: for every region with `x1 ≤ x2` and `y1 ≤ y2` and every
`step ≥ 1`, the nested loops of `_centroid` and `_max_value` traverse a
finite sample list whose length is exactly
`((y2 - y1) / step + 1) * ((x2 - x1) / step + 1)` (integer division), and
both functions are folds of their loop bodies over that list, so each loop
body executes finitely many times and both functions terminate. -/
theorem claim_C10_loops_terminate (region : Bounds) (f : Int → Int → ℚ)
    (step : Nat) (hx : region.x1 ≤ region.x2) (hy : region.y1 ≤ region.y2)
    (hstep : 1 ≤ step) :
    (samples region step).length =
      ((region.y2 - region.y1).toNat / step + 1) *
        ((region.x2 - region.x1).toNat / step + 1) ∧
    _centroid region f step =
      (let s := (samples region step).foldl (cstep f) ⟨0, 0, 0, 0⟩
       (s.mean_x, s.mean_y, s.mean_weight)) ∧
    _max_value region f step =
      (samples region step).foldl (fun m p => max m (f p.1 p.2)) 0 := by
  refine ⟨?_, rfl, rfl⟩
  rw [length_samples, length_xrange, length_xrange, if_pos hy, if_pos hx]

/-- Claim C10 witness: the sample-count formula instantiated on the region
`x ∈ [0, 2]`, `y ∈ [0, 3]` with stride 2: 2 rows of 2 columns. -/
theorem claim_C10_loops_terminate_witness :
    (samples ⟨0, 0, 2, 3⟩ 2).length =
      (((3 : Int) - 0).toNat / 2 + 1) * (((2 : Int) - 0).toNat / 2 + 1) ∧
    _centroid ⟨0, 0, 2, 3⟩ (fun x y => (x - y : ℚ)) 2 =
      (let s := (samples ⟨0, 0, 2, 3⟩ 2).foldl (cstep (fun x y => (x - y : ℚ))) ⟨0, 0, 0, 0⟩
       (s.mean_x, s.mean_y, s.mean_weight)) ∧
    _max_value ⟨0, 0, 2, 3⟩ (fun x y => (x - y : ℚ)) 2 =
      (samples ⟨0, 0, 2, 3⟩ 2).foldl
        (fun m p => max m ((fun x y => (x - y : ℚ)) p.1 p.2)) 0 :=
  claim_C10_loops_terminate ⟨0, 0, 2, 3⟩ (fun x y => (x - y : ℚ)) 2
    (by decide) (by decide) (by decide)

lemma sum_map_div_comp {α : Type} (l : List α) (h : α → ℚ) (c : ℚ) :
    (l.map (fun a => h a / c)).sum = (l.map h).sum / c := by
  induction l with
  | nil => simp
  | cons a t ih => simp only [List.map_cons, List.sum_cons, ih, add_div]

/-- Claim C5 (amended): for every decomposition of the region's sample set
into the sample sets of a nonempty list of valid sub-regions — exact
coverage with no overlap, expressed as the concatenation of the
sub-regions' sample lists being a permutation of the region's sample list
— in which every sub-region contributes the same number `n0` of samples,
if the channel value is uniformly `1.0`, then aggregating the
per-sub-region `_centroid` partial results through `centroid` (summing
each tuple component and normalizing by the summed weight) yields exactly
the geometric center of the sampled region. -/
theorem claim_C5_uniform_equal_parts_center (region : Bounds) (step : Nat)
    (parts : List Bounds) (n0 : ℕ) (hstep : 1 ≤ step) (hne : parts ≠ [])
    (hvalid : ∀ R ∈ parts, R.x1 ≤ R.x2 ∧ R.y1 ≤ R.y2)
    (hcover : ((parts.map (fun R => samples R step)).flatten).Perm (samples region step))
    (hsize : ∀ R ∈ parts, (samples R step).length = n0) :
    centroid true (parts.map (fun R => Except.ok (_centroid R (fun _ _ => 1) step))) =
      Except.ok (some (sampledCenter region step)) := by
  obtain ⟨R0, hR0⟩ := List.exists_mem_of_ne_nil parts hne
  have hv0 := hvalid R0 hR0
  have hn0 : 0 < n0 := by
    have h := hsize R0 hR0
    rw [length_samples, length_xrange, length_xrange, if_pos hv0.2, if_pos hv0.1] at h
    exact h ▸ Nat.mul_pos (Nat.succ_pos _) (Nat.succ_pos _)
  have hn0q : ((n0 : ℕ) : ℚ) ≠ 0 := Nat.cast_ne_zero.mpr hn0.ne'
  have hpart : ∀ R ∈ parts, _centroid R (fun _ _ => 1) step =
      (((samples R step).map (fun p => (p.1 : ℚ))).sum / ((n0 : ℕ) : ℚ),
       ((samples R step).map (fun p => (p.2 : ℚ))).sum / ((n0 : ℕ) : ℚ), 1) := by
    intro R hR
    rw [_centroid_components, sumWX_one, sumWY_one, sumW_one, hsize R hR, div_self hn0q]
  have hlist : parts.map (fun R => (Except.ok (_centroid R (fun _ _ => 1) step) : CRes)) =
      (parts.map (fun R =>
        (((samples R step).map (fun p => (p.1 : ℚ))).sum / ((n0 : ℕ) : ℚ),
         ((samples R step).map (fun p => (p.2 : ℚ))).sum / ((n0 : ℕ) : ℚ),
         (1 : ℚ)))).map (Except.ok : ℚ × ℚ × ℚ → CRes) := by
    rw [List.map_map]
    exact List.map_congr_left (fun R hR => by
      simp only [Function.comp_apply, hpart R hR])
  have hXtot : (parts.map (fun R => ((samples R step).map (fun p => (p.1 : ℚ))).sum)).sum
      = ((samples region step).map (fun p => (p.1 : ℚ))).sum := by
    have h := sum_map_flatten (parts.map (fun R => samples R step)) (fun p => (p.1 : ℚ))
    rw [List.map_map] at h
    exact h.symm.trans ((hcover.map (fun p => (p.1 : ℚ))).sum_eq)
  have hYtot : (parts.map (fun R => ((samples R step).map (fun p => (p.2 : ℚ))).sum)).sum
      = ((samples region step).map (fun p => (p.2 : ℚ))).sum := by
    have h := sum_map_flatten (parts.map (fun R => samples R step)) (fun p => (p.2 : ℚ))
    rw [List.map_map] at h
    exact h.symm.trans ((hcover.map (fun p => (p.2 : ℚ))).sum_eq)
  have hN : (samples region step).length = parts.length * n0 := by
    rw [← hcover.length_eq, List.length_flatten, List.map_map]
    exact sum_map_const_nat parts _ n0 (fun R hR => hsize R hR)
  have hKpos : (0 : ℚ) < ((parts.length : ℕ) : ℚ) := by
    exact_mod_cast List.length_pos.mpr hne
  unfold centroid
  rw [hlist, centroidLoop_ok_sums]
  dsimp only
  rw [List.map_map, List.map_map, List.map_map]
  have hX : (parts.map ((fun r : ℚ × ℚ × ℚ => r.1) ∘ (fun R =>
      (((samples R step).map (fun p => (p.1 : ℚ))).sum / ((n0 : ℕ) : ℚ),
       ((samples R step).map (fun p => (p.2 : ℚ))).sum / ((n0 : ℕ) : ℚ),
       (1 : ℚ))))).sum
      = ((samples region step).map (fun p => (p.1 : ℚ))).sum / ((n0 : ℕ) : ℚ) := by
    rw [← hXtot]
    exact sum_map_div_comp parts _ _
  have hY : (parts.map ((fun r : ℚ × ℚ × ℚ => r.2.1) ∘ (fun R =>
      (((samples R step).map (fun p => (p.1 : ℚ))).sum / ((n0 : ℕ) : ℚ),
       ((samples R step).map (fun p => (p.2 : ℚ))).sum / ((n0 : ℕ) : ℚ),
       (1 : ℚ))))).sum
      = ((samples region step).map (fun p => (p.2 : ℚ))).sum / ((n0 : ℕ) : ℚ) := by
    rw [← hYtot]
    exact sum_map_div_comp parts _ _
  have hW : (parts.map ((fun r : ℚ × ℚ × ℚ => r.2.2) ∘ (fun R =>
      (((samples R step).map (fun p => (p.1 : ℚ))).sum / ((n0 : ℕ) : ℚ),
       ((samples R step).map (fun p => (p.2 : ℚ))).sum / ((n0 : ℕ) : ℚ),
       (1 : ℚ))))).sum
      = ((parts.length : ℕ) : ℚ) :=
    sum_map_one parts
  rw [hX, hY, hW]
  simp only [zero_add]
  rw [if_pos hKpos]
  unfold sampledCenter
  dsimp only
  rw [div_div, div_div, mul_comm ((n0 : ℕ) : ℚ) ((parts.length : ℕ) : ℚ), hN]
  push_cast
  rfl

/-- Claim C5 witness: the column region `x = 0`, `y ∈ [0, 3]` split into
two equal two-row bands, each contributing 2 samples; the aggregate equals
the geometric center of the sampled region. -/
theorem claim_C5_uniform_equal_parts_center_witness :
    centroid true (([⟨0, 0, 0, 1⟩, ⟨0, 2, 0, 3⟩] : List Bounds).map
        (fun R => Except.ok (_centroid R (fun _ _ => 1) 1))) =
      Except.ok (some (sampledCenter ⟨0, 0, 0, 3⟩ 1)) :=
  claim_C5_uniform_equal_parts_center ⟨0, 0, 0, 3⟩ 1 [⟨0, 0, 0, 1⟩, ⟨0, 2, 0, 3⟩] 2
    (by decide) (by decide) (by decide) (by decide) (by decide)

/-- Claim C5 counterexample: the same column region `x = 0`, `y ∈ [0, 3]`
split into a one-row band and a three-row band is a partition of the
region into valid, non-overlapping sub-regions covering it exactly, with
stride 1 dividing the region; with the channel uniformly `1.0` the
aggregation (sum each tuple component, normalize by the summed weight)
returns `(0, 1)`, but the geometric center of the sampled region is
`(0, 3/2)` — summing per-chunk means is not the global mean when the
chunks have unequal sample counts, so the claim fails for such
partitions. -/
theorem claim_C5_counterexample :
    (([⟨0, 0, 0, 0⟩, ⟨0, 1, 0, 3⟩] : List Bounds).map (fun R => samples R 1)).flatten.Perm
        (samples ⟨0, 0, 0, 3⟩ 1) ∧
    (∀ R ∈ ([⟨0, 0, 0, 0⟩, ⟨0, 1, 0, 3⟩] : List Bounds), R.x1 ≤ R.x2 ∧ R.y1 ≤ R.y2) ∧
    centroid true (([⟨0, 0, 0, 0⟩, ⟨0, 1, 0, 3⟩] : List Bounds).map
        (fun R => Except.ok (_centroid R (fun _ _ => 1) 1))) = Except.ok (some (0, 1)) ∧
    sampledCenter ⟨0, 0, 0, 3⟩ 1 = (0, 3 / 2) ∧
    (1 : ℚ) < 3 / 2 := by
  have h1 : _centroid ⟨0, 0, 0, 0⟩ (fun _ _ => (1 : ℚ)) 1 = (0, 0, 1) := by
    rw [_centroid_components, sumWX_one, sumWY_one, sumW_one,
      show samples ⟨0, 0, 0, 0⟩ 1 = [((0 : Int), (0 : Int))] from by decide]
    norm_num
  have h2 : _centroid ⟨0, 1, 0, 3⟩ (fun _ _ => (1 : ℚ)) 1 = (0, 2, 1) := by
    rw [_centroid_components, sumWX_one, sumWY_one, sumW_one,
      show samples ⟨0, 1, 0, 3⟩ 1 =
        [((0 : Int), (1 : Int)), (0, 2), (0, 3)] from by decide]
    norm_num
  refine ⟨by decide, by decide, ?_, ?_, by norm_num⟩
  · simp only [List.map_cons, List.map_nil, h1, h2]
    norm_num [centroid, centroidLoop]
  · rw [sampledCenter,
      show samples ⟨0, 0, 0, 3⟩ 1 =
        [((0 : Int), (0 : Int)), (0, 1), (0, 2), (0, 3)] from by decide]
    norm_num

end AfxMetrics
